import Mathlib

/-!
# Grocery list (`script.js`): store, edit session and rendered list

A shallow embedding of `src/script.js` and the properties of its handlers.

* JavaScript strings are sequences of UTF-16 code units (`JSString`); the
  texts the script shows to the user (alerts, button labels) are kept as
  `String`, they never meet the data.
* `JSON.stringify` and `JSON.parse` are platform functions. They are modelled
  after ECMA-262: `QuoteJSONString` for the writer, the JSON grammar for the
  reader. Nested values are parsed with fuel; `parseValue_fuel_stable` shows
  that the fuel `JSON.parse` uses is always enough. A number is kept as its
  lexeme, so the store contents the handlers are followed on are the arrays of
  `{ id, value }` records of strings (`JSError.outsideModel` otherwise).
* `localStorage` is an association list of key/value strings.
* The page is a record: the children of `.items-list`, the `show-container`
  class of the container, the input field, the submit button label, the log of
  `displayAlert` calls and the three globals `editElement`, `editFlag`,
  `editID`. A rendered article carries the text it was given as its title.
* The script hands every value to the browser as markup (`innerHTML`) and
  finds articles by walking the parsed tree. The record keeps the value as
  inert text, so the handlers that render or look up an article follow the
  script only on values that hold no markup. The properties proved below are
  about what that part cannot change: the text format of the store, the
  rejected empty submit, and the ids, which enter the store only through the
  clock reading.
* A handler that raises is modelled by `Except.error`.
-/

namespace GroceryList

/-! ## JavaScript strings -/

/-- One UTF-16 code unit. -/
abbrev CodeUnit := Fin 65536

/-- A JavaScript string: a finite sequence of UTF-16 code units. -/
abbrev JSString := List CodeUnit

/-- The code unit with the given number (taken modulo 2^16). -/
def CodeUnit.ofNat (n : Nat) : CodeUnit := ⟨n % 65536, Nat.mod_lt _ (by decide)⟩

/-- UTF-16 encoding of one Unicode scalar value. -/
def utf16Char (ch : Char) : JSString :=
  if ch.toNat < 0x10000 then [CodeUnit.ofNat ch.toNat]
  else [CodeUnit.ofNat (0xD800 + (ch.toNat - 0x10000) / 0x400),
        CodeUnit.ofNat (0xDC00 + (ch.toNat - 0x10000) % 0x400)]

/-- UTF-16 encoding of a text literal of the source. -/
def utf16 (s : String) : JSString := s.toList.flatMap utf16Char

/-! ## `JSON.stringify` on arrays of `{id, value}` records -/

/-- One list item as kept in the store: the object `{ id, value }`. -/
structure Entry where
  id : JSString
  value : JSString
deriving DecidableEq

def isLeadSurrogate (c : CodeUnit) : Bool := 0xD800 ≤ c.val && c.val ≤ 0xDBFF

def isTrailSurrogate (c : CodeUnit) : Bool := 0xDC00 ≤ c.val && c.val ≤ 0xDFFF

/-- Lowercase hexadecimal digit of a number below 16. -/
def hexDigit (n : Nat) : CodeUnit :=
  if n < 10 then CodeUnit.ofNat (0x30 + n) else CodeUnit.ofNat (0x61 + (n - 10))

/-- The operation `UnicodeEscape`: backslash, `u` and four lowercase hexadecimal digits. -/
def unicodeEscape (c : CodeUnit) : JSString :=
  [0x5C, 0x75, hexDigit (c.val / 4096), hexDigit (c.val / 256 % 16),
    hexDigit (c.val / 16 % 16), hexDigit (c.val % 16)]

/-- The operation `QuoteJSONString` on one code point that is a single code
unit. -/
def quoteUnit (c : CodeUnit) : JSString :=
  if c = 0x08 then [0x5C, 0x62]
  else if c = 0x09 then [0x5C, 0x74]
  else if c = 0x0A then [0x5C, 0x6E]
  else if c = 0x0C then [0x5C, 0x66]
  else if c = 0x0D then [0x5C, 0x72]
  else if c = 0x22 then [0x5C, 0x22]
  else if c = 0x5C then [0x5C, 0x5C]
  else if c.val < 0x20 || isLeadSurrogate c || isTrailSurrogate c then unicodeEscape c
  else [c]

/-- The operation `QuoteJSONString` without the two enclosing quotes: the
string is read code point by code point, a surrogate pair is copied,
everything else goes through `quoteUnit`. -/
def quoteBody : JSString → JSString
  | [] => []
  | [c] => quoteUnit c
  | c :: d :: rest =>
    if isLeadSurrogate c && isTrailSurrogate d then c :: d :: quoteBody rest
    else quoteUnit c ++ quoteBody (d :: rest)

/-- The operation `QuoteJSONString`. -/
def quoteJSONString (s : JSString) : JSString := 0x22 :: (quoteBody s ++ [0x22])

/-- The operation `SerializeJSONObject` on `{ id, value }`: the own keys in
creation order. -/
def serializeEntry (e : Entry) : JSString :=
  0x7B :: (quoteJSONString (utf16 "id") ++ 0x3A :: (quoteJSONString e.id ++
    0x2C :: (quoteJSONString (utf16 "value") ++ 0x3A :: (quoteJSONString e.value ++ [0x7D]))))

/-- The elements of an array, separated by commas. -/
def serializeElements : List Entry → JSString
  | [] => []
  | [e] => serializeEntry e
  | e :: e' :: es => serializeEntry e ++ 0x2C :: serializeElements (e' :: es)

/-- The call `JSON.stringify(items)` for an array of `{ id, value }` records. -/
def JSON.stringify (items : List Entry) : JSString :=
  0x5B :: (serializeElements items ++ [0x5D])

/-! ## `JSON.parse` -/

/-- A value produced by `JSON.parse`. A number is kept as its lexeme, an
object as its members in source order. -/
inductive JSONValue where
  | null
  | bool (b : Bool)
  | number (lexeme : JSString)
  | string (s : JSString)
  | array (xs : List JSONValue)
  | object (members : List (JSString × JSONValue))

def isWS (c : CodeUnit) : Bool := c = 0x20 || c = 0x09 || c = 0x0A || c = 0x0D

def skipWS : JSString → JSString
  | [] => []
  | c :: rest => if isWS c then skipWS rest else c :: rest

def isDigit (c : CodeUnit) : Bool := 0x30 ≤ c.val && c.val ≤ 0x39

/-- Value of a hexadecimal digit, either case. -/
def hexVal (c : CodeUnit) : Option Nat :=
  if 0x30 ≤ c.val ∧ c.val ≤ 0x39 then some (c.val - 0x30)
  else if 0x61 ≤ c.val ∧ c.val ≤ 0x66 then some (c.val - 0x61 + 10)
  else if 0x41 ≤ c.val ∧ c.val ≤ 0x46 then some (c.val - 0x41 + 10)
  else none

/-- The code unit written by four hexadecimal digits. -/
def hex4 (a b c d : CodeUnit) : Option CodeUnit :=
  match hexVal a, hexVal b, hexVal c, hexVal d with
  | some x, some y, some z, some w => some (CodeUnit.ofNat (((x * 16 + y) * 16 + z) * 16 + w))
  | _, _, _, _ => none

/-- The code unit denoted by a one-letter escape. -/
def unescape (c : CodeUnit) : Option CodeUnit :=
  if c = 0x22 then some 0x22
  else if c = 0x5C then some 0x5C
  else if c = 0x2F then some 0x2F
  else if c = 0x62 then some 0x08
  else if c = 0x66 then some 0x0C
  else if c = 0x6E then some 0x0A
  else if c = 0x72 then some 0x0D
  else if c = 0x74 then some 0x09
  else none

/-- Reads a JSON string after its opening quote, up to and including the
closing quote; gives the string denoted and the rest of the input. -/
def parseString : JSString → Option (JSString × JSString)
  | [] => none
  | c :: rest =>
    if c = 0x22 then some ([], rest)
    else if c = 0x5C then
      match rest with
      | [] => none
      | e :: rest1 =>
        if e = 0x75 then
          match rest1 with
          | h1 :: h2 :: h3 :: h4 :: rest2 =>
            match hex4 h1 h2 h3 h4 with
            | some u => (parseString rest2).map (fun r => (u :: r.1, r.2))
            | none => none
          | _ => none
        else
          match unescape e with
          | some u => (parseString rest1).map (fun r => (u :: r.1, r.2))
          | none => none
    else if c.val < 0x20 then none
    else (parseString rest).map (fun r => (c :: r.1, r.2))

/-- Splits off the longest prefix of decimal digits. -/
def spanDigits : JSString → JSString × JSString
  | [] => ([], [])
  | c :: rest =>
    if isDigit c then ((spanDigits rest).1.cons c, (spanDigits rest).2) else ([], c :: rest)

/-- The integer part of a JSON number: `0`, or a non-zero digit and digits. -/
def parseInt : JSString → Option (JSString × JSString)
  | [] => none
  | c :: rest =>
    if c = 0x30 then some ([c], rest)
    else if isDigit c then some (c :: (spanDigits rest).1, (spanDigits rest).2)
    else none

/-- The optional fraction of a JSON number: a dot and at least one digit. -/
def parseFrac : JSString → Option (JSString × JSString)
  | [] => some ([], [])
  | c :: rest =>
    if c = 0x2E then
      match spanDigits rest with
      | ([], _) => none
      | (ds, rest1) => some (c :: ds, rest1)
    else some ([], c :: rest)

/-- At least one digit. -/
def parseDigits1 (input : JSString) : Option (JSString × JSString) :=
  match spanDigits input with
  | ([], _) => none
  | (ds, rest) => some (ds, rest)

/-- The optional exponent of a JSON number. -/
def parseExp : JSString → Option (JSString × JSString)
  | [] => some ([], [])
  | c :: rest =>
    if c = 0x65 || c = 0x45 then
      match rest with
      | s :: rest1 =>
        if s = 0x2B || s = 0x2D then
          (parseDigits1 rest1).map (fun r => (c :: s :: r.1, r.2))
        else (parseDigits1 rest).map (fun r => (c :: r.1, r.2))
      | [] => none
    else some ([], c :: rest)

/-- A JSON number: gives its lexeme and the rest of the input. -/
def parseNumber (input : JSString) : Option (JSString × JSString) :=
  let signed : JSString × JSString :=
    match input with
    | c :: rest => if c = 0x2D then ([c], rest) else ([], input)
    | [] => ([], [])
  match parseInt signed.2 with
  | none => none
  | some (i, r1) =>
    match parseFrac r1 with
    | none => none
    | some (f, r2) =>
      match parseExp r2 with
      | none => none
      | some (e, r3) => some (signed.1 ++ i ++ f ++ e, r3)

/-- Removes the given word from the front of the input. -/
def expect : JSString → JSString → Option JSString
  | [], input => some input
  | _ :: _, [] => none
  | w :: ws, c :: rest => if w = c then expect ws rest else none

mutual

/-- A JSON value, with leading white space. -/
def parseValue : Nat → JSString → Option (JSONValue × JSString)
  | 0, _ => none
  | fuel + 1, input =>
    match skipWS input with
    | [] => none
    | c :: rest =>
      if c = 0x22 then
        (parseString rest).map (fun r => (JSONValue.string r.1, r.2))
      else if c = 0x5B then
        match skipWS rest with
        | [] => none
        | d :: rest1 =>
          if d = 0x5D then some (JSONValue.array [], rest1)
          else (parseElements fuel rest).map (fun r => (JSONValue.array r.1, r.2))
      else if c = 0x7B then
        match skipWS rest with
        | [] => none
        | d :: rest1 =>
          if d = 0x7D then some (JSONValue.object [], rest1)
          else (parseMembers fuel rest).map (fun r => (JSONValue.object r.1, r.2))
      else if c = 0x74 then
        (expect (utf16 "rue") rest).map (fun r => (JSONValue.bool true, r))
      else if c = 0x66 then
        (expect (utf16 "alse") rest).map (fun r => (JSONValue.bool false, r))
      else if c = 0x6E then
        (expect (utf16 "ull") rest).map (fun r => (JSONValue.null, r))
      else
        (parseNumber (c :: rest)).map (fun r => (JSONValue.number r.1, r.2))

/-- The elements of a non-empty array, up to and including the closing
bracket. -/
def parseElements : Nat → JSString → Option (List JSONValue × JSString)
  | 0, _ => none
  | fuel + 1, input =>
    match parseValue fuel input with
    | none => none
    | some (v, rest) =>
      match skipWS rest with
      | [] => none
      | c :: rest1 =>
        if c = 0x2C then (parseElements fuel rest1).map (fun r => (v :: r.1, r.2))
        else if c = 0x5D then some ([v], rest1)
        else none

/-- The members of a non-empty object, up to and including the closing
brace. -/
def parseMembers : Nat → JSString → Option (List (JSString × JSONValue) × JSString)
  | 0, _ => none
  | fuel + 1, input =>
    match skipWS input with
    | [] => none
    | q :: rest =>
      if q = 0x22 then
        match parseString rest with
        | none => none
        | some (key, rest1) =>
          match skipWS rest1 with
          | [] => none
          | colon :: rest2 =>
            if colon = 0x3A then
              match parseValue fuel rest2 with
              | none => none
              | some (v, rest3) =>
                match skipWS rest3 with
                | [] => none
                | c :: rest4 =>
                  if c = 0x2C then
                    (parseMembers fuel rest4).map (fun r => ((key, v) :: r.1, r.2))
                  else if c = 0x7D then some ([(key, v)], rest4)
                  else none
            else none
      else none

end

/-- What a handler raises instead of returning. The page left behind by a
handler that raises is not modelled. -/
inductive JSError where
  /-- Raised by `JSON.parse` when it rejects its argument. -/
  | syntaxError
  /-- Raised by `list.removeChild` on a node that is not a child of the list. -/
  | notFoundError
  /-- Property access on `undefined`. -/
  | typeError
  /-- Not an exception of the program but the border of this model: the
  stored JSON text is well formed without being an array of `{ id, value }`
  records of strings, or an edit button outside the rendered list is
  clicked. -/
  | outsideModel
deriving DecidableEq

/-- The call `JSON.parse(text)`: one JSON value surrounded by optional white space;
anything else raises `SyntaxError`. Every nested value costs the parser at
most two units of fuel per code unit read, so the fuel given here is never
what makes it fail (`parseValue_fuel_stable`). -/
def JSON.parse (text : JSString) : Except JSError JSONValue :=
  match parseValue (2 * text.length + 2) text with
  | none => Except.error JSError.syntaxError
  | some (v, rest) =>
    match skipWS rest with
    | [] => Except.ok v
    | _ :: _ => Except.error JSError.syntaxError

/-- The value `JSON.parse` builds for the text of a record `{ id, value }`. -/
def entryValue (e : Entry) : JSONValue :=
  JSONValue.object [(utf16 "id", JSONValue.string e.id), (utf16 "value", JSONValue.string e.value)]

/-- Reads a parsed value as one `{ id, value }` record of strings. -/
def JSONValue.toEntry? : JSONValue → Option Entry
  | JSONValue.object [(k1, JSONValue.string i), (k2, JSONValue.string v)] =>
    if k1 = utf16 "id" ∧ k2 = utf16 "value" then some ⟨i, v⟩ else none
  | _ => none

/-- Reads the elements of a parsed array as records. -/
def toEntries? : List JSONValue → Option (List Entry)
  | [] => some []
  | x :: xs =>
    match x.toEntry?, toEntries? xs with
    | some e, some es => some (e :: es)
    | _, _ => none

/-- The array of records a parsed value stands for. -/
def JSONValue.asItems : JSONValue → Except JSError (List Entry)
  | JSONValue.array xs =>
    match toEntries? xs with
    | some items => Except.ok items
    | none => Except.error JSError.outsideModel
  | _ => Except.error JSError.outsideModel

/-! ## Clock -/

/-- Decimal digits of a number, least significant first. -/
def digitsRev : Nat → Nat → JSString
  | 0, _ => []
  | fuel + 1, n =>
    CodeUnit.ofNat (0x30 + n % 10) :: (if n / 10 = 0 then [] else digitsRev fuel (n / 10))

/-- Decimal representation of a natural number. -/
def natToString (n : Nat) : JSString := (digitsRev (n + 1) n).reverse

/-- The expression `new Date().getTime().toString()` for the clock reading `t`
(an integer number of milliseconds, negative before 1970). -/
def timeToString (t : Int) : JSString :=
  if t < 0 then 0x2D :: natToString t.natAbs else natToString t.toNat

/-! ## `localStorage` -/

/-- The key/value pairs of `localStorage`. -/
abbrev Storage := List (JSString × JSString)

def Storage.getItem (st : Storage) (key : JSString) : Option JSString :=
  match st with
  | [] => none
  | kv :: rest => if kv.1 = key then some kv.2 else Storage.getItem rest key

def Storage.removeItem (st : Storage) (key : JSString) : Storage :=
  st.filter (fun kv => kv.1 ≠ key)

def Storage.setItem (st : Storage) (key value : JSString) : Storage :=
  match st.getItem key with
  | none => st ++ [(key, value)]
  | some _ => st.map (fun kv => if kv.1 = key then (kv.1, value) else kv)

/-! ## The page -/

/-- A rendered `article.grocery-item`. -/
structure Element where
  /-- Identity of the DOM node. -/
  node : Nat
  /-- The attribute `data-id`. -/
  dataId : JSString
  /-- The text placed in `p.title`, read back as its `innerHTML`; how the
  browser interprets markup inside that text is not modelled. -/
  title : JSString
deriving DecidableEq

/-- State of the page and of the script's globals. -/
structure Page where
  localStorage : Storage
  /-- Children of `.items-list`, in document order. -/
  list : List Element
  /-- Whether `.grocery-container` has the class `show-container`. -/
  showContainer : Bool
  /-- The property `grocery.value` of the input field. -/
  groceryValue : JSString
  /-- The property `submitBtn.textContent`. -/
  submitBtnText : String
  /-- The calls of `displayAlert` so far, as (text, action). -/
  alerts : List (String × String)
  /-- The global `editElement`: the node whose title is being edited. -/
  editElement : Option Nat
  editFlag : Bool
  editID : JSString
  /-- The node `document.createElement` returns next. -/
  nextNode : Nat
deriving DecidableEq

/-- The page as loaded, before `DOMContentLoaded`: nothing rendered, the
container hidden, the globals at their initial values. -/
def freshPage (storage : Storage) (submitLabel : String) : Page :=
  { localStorage := storage, list := [], showContainer := false, groceryValue := [],
    submitBtnText := submitLabel, alerts := [], editElement := none, editFlag := false,
    editID := [], nextNode := 0 }

/-- The rendered article a button click comes from, looked up by its node. -/
def Page.article (s : Page) (node : Nat) : Option Element :=
  s.list.find? (fun el => el.node = node)

/-- The function `displayAlert`: the alert is recorded; the timer that clears
it after 1000 ms is not modelled. -/
def displayAlert (text action : String) (s : Page) : Page :=
  { s with alerts := s.alerts ++ [(text, action)] }

def setBackToDefault (s : Page) : Page :=
  { s with groceryValue := [], editFlag := false, editID := [], submitBtnText := "Add" }

/-- The function `getLocalStorage()`, on the current content of
`localStorage`. -/
def getLocalStorage (st : Storage) : Except JSError JSONValue :=
  match st.getItem (utf16 "list") with
  | none => Except.ok (JSONValue.array [])
  | some text => if text = [] then Except.ok (JSONValue.array []) else JSON.parse text

/-- The result of `getLocalStorage()` when used as an array of records. -/
def readItems (st : Storage) : Except JSError (List Entry) :=
  match getLocalStorage st with
  | Except.error err => Except.error err
  | Except.ok v => v.asItems

def addToLocalStorage (id value : JSString) (s : Page) : Except JSError Page :=
  match readItems s.localStorage with
  | Except.error err => Except.error err
  | Except.ok items =>
    let items1 := items ++ [⟨id, value⟩]
    Except.ok { s with localStorage := s.localStorage.setItem (utf16 "list") (JSON.stringify items1) }

def removeFromLocalStorage (id : JSString) (s : Page) : Except JSError Page :=
  match readItems s.localStorage with
  | Except.error err => Except.error err
  | Except.ok items =>
    let items1 := items.filter (fun item => item.id ≠ id)
    Except.ok { s with localStorage := s.localStorage.setItem (utf16 "list") (JSON.stringify items1) }

def editLocalStorage (id value : JSString) (s : Page) : Except JSError Page :=
  match readItems s.localStorage with
  | Except.error err => Except.error err
  | Except.ok items =>
    let items1 := items.map (fun item => if item.id = id then { item with value := value } else item)
    Except.ok { s with localStorage := s.localStorage.setItem (utf16 "list") (JSON.stringify items1) }

/-- The assignment `editElement.innerHTML = val`. -/
def setInnerHTML (node : Nat) (val : JSString) (s : Page) : Page :=
  { s with list := s.list.map (fun el => if el.node = node then { el with title := val } else el) }

/-- The handler of the form's submit event; `now` is the clock reading. -/
def addItem (now : Int) (s : Page) : Except JSError Page :=
  let val := s.groceryValue
  let id := timeToString now
  if val ≠ [] ∧ s.editFlag = false then
    let element : Element := ⟨s.nextNode, id, val⟩
    let s1 := { s with list := s.list ++ [element], nextNode := s.nextNode + 1 }
    let s2 := displayAlert "Item Added" "success" s1
    let s3 := { s2 with showContainer := true }
    match addToLocalStorage id val s3 with
    | Except.error err => Except.error err
    | Except.ok s4 => Except.ok (setBackToDefault s4)
  else if val ≠ [] ∧ s.editFlag = true then
    match s.editElement with
    | none => Except.error JSError.typeError
    | some node =>
      let s1 := setInnerHTML node val s
      let s2 := displayAlert "Item Name Updated" "success" s1
      match editLocalStorage s.editID val s2 with
      | Except.error err => Except.error err
      | Except.ok s3 => Except.ok (setBackToDefault s3)
  else
    Except.ok (displayAlert "Please Enter Value" "danger" s)

def clearItems (s : Page) : Page :=
  let s1 := { s with list := [] }
  let s2 := { s1 with showContainer := false }
  let s3 := displayAlert "Empty List" "danger" s2
  let s4 := setBackToDefault s3
  { s4 with localStorage := s4.localStorage.removeItem (utf16 "list") }

/-- The click handler of the delete button of the article `node`. -/
def deleteItem (node : Nat) (s : Page) : Except JSError Page :=
  match s.article node with
  | none => Except.error JSError.notFoundError
  | some element =>
    let id := element.dataId
    let s1 := { s with list := s.list.eraseP (fun el => el.node = node) }
    let s2 := if s1.list.length = 0 then { s1 with showContainer := false } else s1
    let s3 := displayAlert "Item Removed" "danger" s2
    let s4 := setBackToDefault s3
    removeFromLocalStorage id s4

/-- The click handler of the edit button of the article `node`. -/
def editItem (node : Nat) (s : Page) : Except JSError Page :=
  match s.article node with
  | none => Except.error JSError.outsideModel
  | some element =>
    Except.ok { s with editElement := some node, groceryValue := element.title,
                       editFlag := true, editID := element.dataId, submitBtnText := "Update" }

def createListItem (id value : JSString) (s : Page) : Page :=
  { s with list := s.list ++ [⟨s.nextNode, id, value⟩], nextNode := s.nextNode + 1 }

/-- The handler of `DOMContentLoaded`. -/
def setupItems (s : Page) : Except JSError Page :=
  match readItems s.localStorage with
  | Except.error err => Except.error err
  | Except.ok items =>
    if items.length > 0 then
      let s1 := items.foldl (fun acc item => createListItem item.id item.value acc) s
      Except.ok { s1 with showContainer := true }
    else Except.ok s

/-- The user types `v` into the input field. -/
def typeValue (v : JSString) (s : Page) : Page := { s with groceryValue := v }

/-- What can happen to the page after it is set up. -/
inductive Event where
  /-- The user replaces the content of the input field. -/
  | type (v : JSString)
  /-- The form is submitted when the clock reads `now`. -/
  | submit (now : Int)
  /-- The edit button of the article `node` is clicked. -/
  | edit (node : Nat)
  /-- The delete button of the article `node` is clicked. -/
  | delete (node : Nat)
  /-- The clear button is clicked. -/
  | clear
deriving DecidableEq

def step (s : Page) : Event → Except JSError Page
  | Event.type v => Except.ok (typeValue v s)
  | Event.submit now => addItem now s
  | Event.edit node => editItem node s
  | Event.delete node => deleteItem node s
  | Event.clear => Except.ok (clearItems s)

/-- Runs the handlers of a sequence of events, stopping at the first that
raises. -/
def run (s : Page) : List Event → Except JSError Page
  | [] => Except.ok s
  | ev :: evs =>
    match step s ev with
    | Except.error err => Except.error err
    | Except.ok s1 => run s1 evs

/-- Whether the page can receive the event: edit and delete buttons exist
only inside rendered articles. -/
def Event.possible (s : Page) : Event → Bool
  | Event.edit node => (s.article node).isSome
  | Event.delete node => (s.article node).isSome
  | _ => true

/-- Every event of the sequence is possible in the state it arrives in. -/
def possibleTrace (s : Page) : List Event → Bool
  | [] => true
  | ev :: evs =>
    ev.possible s &&
      match step s ev with
      | Except.ok s1 => possibleTrace s1 evs
      | Except.error _ => true

/-- Whether a submit in state `s` creates a new entry (rather than updating
one or being rejected). -/
def addsEntry (s : Page) : Bool := s.groceryValue ≠ [] && s.editFlag = false

/-- The clock readings taken by the submits of a sequence, in order. -/
def clockReadings : List Event → List Int
  | [] => []
  | Event.submit now :: evs => now :: clockReadings evs
  | _ :: evs => clockReadings evs

/-- The id a submit gives to the entry it creates, if it creates one. -/
def Event.added (s : Page) : Event → List JSString
  | Event.submit now => if addsEntry s then [timeToString now] else []
  | _ => []

/-- The ids given to the entries created along a sequence, in order. -/
def addedIds (s : Page) : List Event → List JSString
  | [] => []
  | ev :: evs =>
    ev.added s ++
      match step s ev with
      | Except.ok s1 => addedIds s1 evs
      | Except.error _ => []

/-! ## Auxiliary definitions of the proofs -/

/-- Number denoted by decimal digits given least significant first. -/
def valueRev : JSString → Nat
  | [] => 0
  | d :: rest => (d.val - 0x30) + 10 * valueRev rest

/-! ## A sample state -/

/-- Two stored entries. -/
def demoItems : List Entry :=
  [⟨utf16 "1000", utf16 "Milk"⟩, ⟨utf16 "1001", utf16 "Eggs"⟩]

/-- A store holding `demoItems` as the program writes them. -/
def demoStorage : Storage := [(utf16 "list", JSON.stringify demoItems)]

/-- The page `setupItems` builds over `demoStorage`. -/
def demoPage : Page :=
  { localStorage := demoStorage,
    list := [⟨0, utf16 "1000", utf16 "Milk"⟩, ⟨1, utf16 "1001", utf16 "Eggs"⟩],
    showContainer := true, groceryValue := [], submitBtnText := "Add", alerts := [],
    editElement := none, editFlag := false, editID := [], nextNode := 2 }

/-- The page `demoPage` while its first entry is being edited and the input
field has been emptied. -/
def demoEditing : Page :=
  { demoPage with editElement := some 0, editFlag := true, editID := utf16 "1000",
                  submitBtnText := "Update" }

/-- A session: add, rename, delete, a rejected empty submit, clear, add. -/
def demoEvents : List Event :=
  [Event.type (utf16 "Tea"), Event.submit 1002, Event.edit 0, Event.type (utf16 "Oat Milk"),
    Event.submit 1003, Event.delete 0, Event.submit 1004, Event.clear,
    Event.type (utf16 "Rice"), Event.submit 1005]

/-! # Lemmas -/

theorem hexVal_hexDigit : ∀ n, n < 16 → hexVal (hexDigit n) = some n := by decide

theorem hex4_unicodeEscape (c : CodeUnit) :
    hex4 (hexDigit (c.val / 4096)) (hexDigit (c.val / 256 % 16))
      (hexDigit (c.val / 16 % 16)) (hexDigit (c.val % 16)) = some c := by
  have hc : c.val < 65536 := c.isLt
  have h1 := hexVal_hexDigit (c.val / 4096) (by omega)
  have h2 := hexVal_hexDigit (c.val / 256 % 16) (by omega)
  have h3 := hexVal_hexDigit (c.val / 16 % 16) (by omega)
  have h4 := hexVal_hexDigit (c.val % 16) (by omega)
  simp only [hex4, h1, h2, h3, h4]
  congr 1
  apply Fin.ext
  simp only [CodeUnit.ofNat]
  omega

theorem parseString_escape (e u : CodeUnit) (tail : JSString) (he : e ≠ 0x75)
    (hu : unescape e = some u) :
    parseString (0x5C :: e :: tail) = (parseString tail).map (fun r => (u :: r.1, r.2)) := by
  rw [parseString.eq_def]
  simp [he, hu]

theorem parseString_unicode (c : CodeUnit) (tail : JSString) :
    parseString (unicodeEscape c ++ tail) = (parseString tail).map (fun r => (c :: r.1, r.2)) := by
  rw [parseString.eq_def]
  simp [unicodeEscape, hex4_unicodeEscape]

theorem parseString_raw (c : CodeUnit) (tail : JSString) (h1 : c ≠ 0x22) (h2 : c ≠ 0x5C)
    (h3 : ¬ c.val < 0x20) :
    parseString (c :: tail) = (parseString tail).map (fun r => (c :: r.1, r.2)) := by
  rw [parseString.eq_def]
  simp [h1, h2, h3]

theorem parseString_quoteUnit (c : CodeUnit) (tail : JSString) :
    parseString (quoteUnit c ++ tail) = (parseString tail).map (fun r => (c :: r.1, r.2)) := by
  unfold quoteUnit
  split_ifs with h1 h2 h3 h4 h5 h6 h7 h8
  · subst h1; exact parseString_escape _ _ _ (by decide) (by decide)
  · subst h2; exact parseString_escape _ _ _ (by decide) (by decide)
  · subst h3; exact parseString_escape _ _ _ (by decide) (by decide)
  · subst h4; exact parseString_escape _ _ _ (by decide) (by decide)
  · subst h5; exact parseString_escape _ _ _ (by decide) (by decide)
  · subst h6; exact parseString_escape _ _ _ (by decide) (by decide)
  · subst h7; exact parseString_escape _ _ _ (by decide) (by decide)
  · exact parseString_unicode c tail
  · simp only [Bool.or_eq_true, decide_eq_true_eq, not_or] at h8
    exact parseString_raw c tail h6 h7 h8.1.1

theorem parseString_quoteBody (s tail : JSString) :
    parseString (quoteBody s ++ 0x22 :: tail) = some (s, tail) := by
  induction s using quoteBody.induct with
  | case1 => rw [quoteBody, parseString.eq_def]; simp
  | case2 c =>
    rw [quoteBody, parseString_quoteUnit, parseString.eq_def]; simp
  | case3 c d rest h ih =>
    rw [quoteBody, if_pos h]
    simp only [Bool.and_eq_true, isLeadSurrogate, isTrailSurrogate, decide_eq_true_eq] at h
    have hc1 : c ≠ 0x22 := by intro hc; rw [hc] at h; exact absurd h.1.1 (by decide)
    have hc2 : c ≠ 0x5C := by intro hc; rw [hc] at h; exact absurd h.1.1 (by decide)
    have hd1 : d ≠ 0x22 := by intro hc; rw [hc] at h; exact absurd h.2.1 (by decide)
    have hd2 : d ≠ 0x5C := by intro hc; rw [hc] at h; exact absurd h.2.1 (by decide)
    rw [List.cons_append, List.cons_append, parseString_raw c _ hc1 hc2 (by omega),
      parseString_raw d _ hd1 hd2 (by omega), ih]
    rfl
  | case4 c d rest h ih =>
    rw [quoteBody, if_neg h, List.append_assoc, parseString_quoteUnit, ih]
    rfl



theorem skipWS_cons (c : CodeUnit) (rest : JSString) (h : isWS c = false) :
    skipWS (c :: rest) = c :: rest := by
  simp [skipWS, h]

theorem parseValue_string (fuel : Nat) (s rest : JSString) :
    parseValue (fuel + 1) (quoteJSONString s ++ rest) = some (JSONValue.string s, rest) := by
  rw [parseValue]
  simp only [quoteJSONString, List.cons_append, List.append_assoc, List.singleton_append]
  rw [skipWS_cons _ _ (by decide)]
  simp [parseString_quoteBody]

theorem quote_id : quoteJSONString (utf16 "id") = [0x22, 0x69, 0x64, 0x22] := by decide

theorem quote_value :
    quoteJSONString (utf16 "value") = [0x22, 0x76, 0x61, 0x6C, 0x75, 0x65, 0x22] := by decide

theorem parseString_id (rest : JSString) :
    parseString (0x69 :: 0x64 :: 0x22 :: rest) = some (utf16 "id", rest) := by
  have h := parseString_quoteBody (utf16 "id") rest
  have e : quoteBody (utf16 "id") = [0x69, 0x64] := by decide
  rw [e] at h
  exact h

theorem parseString_value (rest : JSString) :
    parseString (0x76 :: 0x61 :: 0x6C :: 0x75 :: 0x65 :: 0x22 :: rest) = some (utf16 "value", rest) := by
  have h := parseString_quoteBody (utf16 "value") rest
  have e : quoteBody (utf16 "value") = [0x76, 0x61, 0x6C, 0x75, 0x65] := by decide
  rw [e] at h
  exact h

theorem parseValue_entry (fuel : Nat) (e : Entry) (rest : JSString) :
    parseValue (fuel + 4) (serializeEntry e ++ rest) = some (entryValue e, rest) := by
  have hv := parseValue_string fuel e.value (0x7D :: rest)
  have hi := parseValue_string (fuel + 1) e.id
    (0x2C :: 0x22 :: 0x76 :: 0x61 :: 0x6C :: 0x75 :: 0x65 :: 0x22 :: 0x3A ::
      (quoteJSONString e.value ++ 0x7D :: rest))
  rw [parseValue]
  simp only [serializeEntry, quote_id, quote_value, List.cons_append, List.append_assoc,
    List.singleton_append, List.nil_append]
  rw [skipWS_cons _ _ (by decide)]
  simp only []
  rw [skipWS_cons _ _ (by decide)]
  simp only []
  rw [parseMembers, skipWS_cons _ _ (by decide)]
  simp only [parseString_id]
  rw [skipWS_cons _ _ (by decide)]
  simp only [hi]
  rw [skipWS_cons _ _ (by decide)]
  simp only []
  rw [parseMembers, skipWS_cons _ _ (by decide)]
  simp only [parseString_value]
  rw [skipWS_cons _ _ (by decide)]
  simp only [hv]
  rw [skipWS_cons _ _ (by decide)]
  simp [entryValue]


theorem serializeElements_cons (e : Entry) (es : List Entry) :
    ∃ tail, serializeElements (e :: es) = 0x7B :: tail := by
  cases es with
  | nil => exact ⟨_, rfl⟩
  | cons e' es => exact ⟨_, rfl⟩

theorem parseElements_entries (fuel : Nat) (e : Entry) (es : List Entry) (rest : JSString) :
    parseElements (fuel + es.length + 5) (serializeElements (e :: es) ++ 0x5D :: rest)
      = some ((e :: es).map entryValue, rest) := by
  induction es generalizing e with
  | nil =>
    rw [parseElements]
    simp only [serializeElements, List.length_nil, Nat.add_zero]
    rw [parseValue_entry fuel e]
    simp only []
    rw [skipWS_cons _ _ (by decide)]
    simp
  | cons e' es ih =>
    rw [parseElements]
    simp only [serializeElements, List.append_assoc, List.cons_append, List.length_cons]
    rw [show fuel + (es.length + 1) + 4 = (fuel + es.length + 1) + 4 by omega,
      parseValue_entry (fuel + es.length + 1) e]
    simp only []
    rw [skipWS_cons _ _ (by decide)]
    simp only []
    rw [show fuel + es.length + 1 + 4 = fuel + es.length + 5 by omega, ih e']
    simp

theorem length_le_serializeElements (items : List Entry) :
    items.length ≤ (serializeElements items).length := by
  induction items using serializeElements.induct with
  | case1 => simp [serializeElements]
  | case2 e => simp [serializeElements, serializeEntry]
  | case3 e e' es ih =>
    simp only [serializeElements, List.length_append, List.length_cons] at ih ⊢
    omega

theorem toEntries_map_entryValue (items : List Entry) :
    toEntries? (items.map entryValue) = some items := by
  induction items with
  | nil => rfl
  | cons e es ih =>
    have he : (entryValue e).toEntry? = some e := by
      simp [entryValue, JSONValue.toEntry?]
    simp [toEntries?, he, ih]

theorem parseElements_fuel (n : Nat) (e : Entry) (es : List Entry) (rest : JSString)
    (h : es.length + 5 ≤ n) :
    parseElements n (serializeElements (e :: es) ++ 0x5D :: rest)
      = some ((e :: es).map entryValue, rest) := by
  obtain ⟨k, rfl⟩ := Nat.exists_eq_add_of_le h
  rw [show es.length + 5 + k = k + es.length + 5 by omega]
  exact parseElements_entries k e es rest

theorem parseValue_stringify (n : Nat) (items : List Entry) (rest : JSString)
    (h : items.length + 5 ≤ n) :
    parseValue n (JSON.stringify items ++ rest)
      = some (JSONValue.array (items.map entryValue), rest) := by
  obtain ⟨m, rfl⟩ : ∃ m, n = m + 1 := ⟨n - 1, by omega⟩
  rw [parseValue]
  cases items with
  | nil =>
    simp only [JSON.stringify, serializeElements, List.cons_append, List.nil_append]
    rw [skipWS_cons _ _ (by decide)]
    simp only []
    rw [skipWS_cons _ _ (by decide)]
    simp
  | cons e es =>
    have hp := parseElements_fuel m e es rest (by simp only [List.length_cons] at h; omega)
    obtain ⟨tail, ht⟩ := serializeElements_cons e es
    simp only [JSON.stringify, List.cons_append, List.append_assoc, List.singleton_append]
    rw [skipWS_cons _ _ (by decide)]
    simp only []
    rw [ht] at hp ⊢
    simp only [List.cons_append] at hp ⊢
    rw [skipWS_cons _ _ (by decide)]
    simp [hp]

theorem parse_stringify (items : List Entry) :
    JSON.parse (JSON.stringify items) = Except.ok (JSONValue.array (items.map entryValue)) := by
  have hlen := length_le_serializeElements items
  have h := parseValue_stringify (2 * (JSON.stringify items).length + 2) items [] (by
    simp only [JSON.stringify, List.length_cons, List.length_append]
    omega)
  rw [List.append_nil] at h
  simp [JSON.parse, h, skipWS]

/-! ### The fuel of `JSON.parse` -/

theorem skipWS_length_le (s : JSString) : (skipWS s).length ≤ s.length := by
  induction s with
  | nil => simp [skipWS]
  | cons c rest ih =>
    rw [skipWS]
    split_ifs
    · simp only [List.length_cons]; omega
    · exact Nat.le_refl _

theorem skipWS_eq_cons_length (s rest : JSString) (c : CodeUnit) (h : skipWS s = c :: rest) :
    rest.length + 1 ≤ s.length := by
  have := skipWS_length_le s
  rw [h] at this
  simpa using this

theorem map_cons_eq_some (o : Option (JSString × JSString)) (u : CodeUnit) (v r : JSString)
    (h : o.map (fun p => (u :: p.1, p.2)) = some (v, r)) : ∃ v1, o = some (v1, r) := by
  cases o with
  | none => simp at h
  | some p =>
    simp only [Option.map_some', Option.some.injEq, Prod.mk.injEq] at h
    exact ⟨p.1, by rw [← h.2]⟩

theorem parseString_length_le (s v r : JSString) (h : parseString s = some (v, r)) :
    r.length ≤ s.length := by
  induction s using parseString.induct generalizing v r with
  | case1 => simp [parseString] at h
  | case2 rest =>
    rw [parseString.eq_def] at h
    simp only [if_true, Option.some.injEq, Prod.mk.injEq] at h
    rw [← h.2]; simp
  | case3 hne =>
    rw [parseString.eq_def] at h
    simp at h
  | case4 h1 h2 h3 h4 rest2 u hu hne ih =>
    rw [parseString.eq_def] at h
    simp only [hne, if_false, if_true, hu] at h
    obtain ⟨v1, hp⟩ := map_cons_eq_some _ _ _ _ h
    have := ih v1 r hp
    simp only [List.length_cons]
    omega
  | case5 h1 h2 h3 h4 rest2 hu hne =>
    rw [parseString.eq_def] at h
    simp [hu] at h
  | case6 rest1 hno hne =>
    rw [parseString.eq_def] at h
    simp only [hne, if_false, if_true] at h
    cases h
  | case7 e rest1 he u hu hne ih =>
    rw [parseString.eq_def] at h
    simp only [hne, he, if_false, if_true, hu] at h
    obtain ⟨v1, hp⟩ := map_cons_eq_some _ _ _ _ h
    have := ih v1 r hp
    simp only [List.length_cons]
    omega
  | case8 e rest1 he hu hne =>
    rw [parseString.eq_def] at h
    simp [he, hu] at h
  | case9 c rest hc1 hc2 hlt =>
    rw [parseString.eq_def] at h
    simp [hc1, hc2, hlt] at h
  | case10 c rest hc1 hc2 hlt ih =>
    rw [parseString.eq_def] at h
    simp only [hc1, hc2, hlt, if_false] at h
    obtain ⟨v1, hp⟩ := map_cons_eq_some _ _ _ _ h
    have := ih v1 r hp
    simp only [List.length_cons]
    omega

theorem map_fst_eq_some {α β : Type} (o : Option (α × JSString)) (f : α → β) (v : β)
    (r : JSString) (h : o.map (fun p => (f p.1, p.2)) = some (v, r)) :
    ∃ x, o = some (x, r) := by
  cases o with
  | none => simp at h
  | some p =>
    simp only [Option.map_some', Option.some.injEq, Prod.mk.injEq] at h
    exact ⟨p.1, by rw [← h.2]⟩

theorem spanDigits_length_le (s : JSString) : (spanDigits s).2.length ≤ s.length := by
  induction s with
  | nil => simp [spanDigits]
  | cons c rest ih =>
    rw [spanDigits]
    split_ifs
    · simp only [List.length_cons]; omega
    · exact Nat.le_refl _

theorem parseDigits1_length_le (s v r : JSString) (h : parseDigits1 s = some (v, r)) :
    r.length ≤ s.length := by
  have hle := spanDigits_length_le s
  unfold parseDigits1 at h
  split at h
  · cases h
  · rename_i ds rest _ hsp
    simp only [Option.some.injEq, Prod.mk.injEq] at h
    rw [hsp] at hle
    rw [← h.2]
    exact hle

theorem parseInt_length_le (s v r : JSString) (h : parseInt s = some (v, r)) :
    r.length ≤ s.length := by
  cases s with
  | nil => simp [parseInt] at h
  | cons c rest =>
    have hle := spanDigits_length_le rest
    rw [parseInt] at h
    split_ifs at h
    · simp only [Option.some.injEq, Prod.mk.injEq] at h
      rw [← h.2]; simp
    · simp only [Option.some.injEq, Prod.mk.injEq] at h
      rw [← h.2]; simp only [List.length_cons]; omega

theorem parseFrac_length_le (s v r : JSString) (h : parseFrac s = some (v, r)) :
    r.length ≤ s.length := by
  cases s with
  | nil =>
    simp only [parseFrac, Option.some.injEq, Prod.mk.injEq] at h
    rw [← h.2]
  | cons c rest =>
    have hle := spanDigits_length_le rest
    rw [parseFrac] at h
    split_ifs at h
    · split at h
      · cases h
      · rename_i ds rest1 _ hsp
        simp only [Option.some.injEq, Prod.mk.injEq] at h
        rw [hsp] at hle
        rw [← h.2]; simp only [List.length_cons]
        exact Nat.le_succ_of_le hle
    · simp only [Option.some.injEq, Prod.mk.injEq] at h
      rw [← h.2]

theorem parseExp_length_le (s v r : JSString) (h : parseExp s = some (v, r)) :
    r.length ≤ s.length := by
  cases s with
  | nil =>
    simp only [parseExp, Option.some.injEq, Prod.mk.injEq] at h
    rw [← h.2]
  | cons c rest =>
    rw [parseExp.eq_def] at h
    simp only [] at h
    split_ifs at h
    · split at h
      · rename_i sgn rest1
        split_ifs at h
        · obtain ⟨x, hx⟩ := map_fst_eq_some _ (fun x => c :: sgn :: x) _ _ h
          have := parseDigits1_length_le _ _ _ hx
          simp only [List.length_cons]; omega
        · obtain ⟨x, hx⟩ := map_fst_eq_some _ (fun x => c :: x) _ _ h
          have := parseDigits1_length_le _ _ _ hx
          simp only [List.length_cons] at this ⊢; omega
      · cases h
    · simp only [Option.some.injEq, Prod.mk.injEq] at h
      rw [← h.2]

theorem parseNumber_length_le (s v r : JSString) (h : parseNumber s = some (v, r)) :
    r.length ≤ s.length := by
  unfold parseNumber at h
  simp only [] at h
  have hsigned : (match s with
      | c :: rest => if c = 0x2D then (([c] : JSString), rest) else ([], s)
      | [] => ([], [])).2.length ≤ s.length := by
    cases s with
    | nil => simp
    | cons c rest =>
      simp only []
      split_ifs <;> simp
  generalize (match s with
      | c :: rest => if c = 0x2D then (([c] : JSString), rest) else ([], s)
      | [] => ([], [])) = signed at h hsigned
  cases hi : parseInt signed.2 with
  | none => simp [hi] at h
  | some pi =>
    obtain ⟨i, r1⟩ := pi
    have h1 := parseInt_length_le _ _ _ hi
    simp only [hi] at h
    cases hf : parseFrac r1 with
    | none => simp [hf] at h
    | some pf =>
      obtain ⟨f, r2⟩ := pf
      have h2 := parseFrac_length_le _ _ _ hf
      simp only [hf] at h
      cases he : parseExp r2 with
      | none => simp [he] at h
      | some pe =>
        obtain ⟨e, r3⟩ := pe
        have h3 := parseExp_length_le _ _ _ he
        simp only [he, Option.some.injEq, Prod.mk.injEq] at h
        rw [← h.2]
        omega

theorem expect_length_le (w s r : JSString) (h : expect w s = some r) :
    r.length ≤ s.length := by
  induction w generalizing s with
  | nil =>
    simp only [expect, Option.some.injEq] at h
    rw [h]
  | cons c w ih =>
    cases s with
    | nil => simp [expect] at h
    | cons d rest =>
      rw [expect] at h
      split_ifs at h
      have := ih rest h
      simp only [List.length_cons]; omega

theorem map_snd_eq_some {β : Type} (o : Option JSString) (b : β) (v : β) (r : JSString)
    (h : o.map (fun p => (b, p)) = some (v, r)) : o = some r := by
  cases o with
  | none => simp at h
  | some p =>
    simp only [Option.map_some', Option.some.injEq, Prod.mk.injEq] at h
    rw [h.2]

theorem parse_length_le (n : Nat) :
    (∀ s v r, parseValue n s = some (v, r) → r.length ≤ s.length) ∧
    (∀ s vs r, parseElements n s = some (vs, r) → r.length ≤ s.length) ∧
    (∀ s ms r, parseMembers n s = some (ms, r) → r.length ≤ s.length) := by
  induction n with
  | zero =>
    refine ⟨?_, ?_, ?_⟩ <;> intro s v r h
    · simp [parseValue] at h
    · simp [parseElements] at h
    · simp [parseMembers] at h
  | succ n ih =>
    obtain ⟨ihv, ihe, ihm⟩ := ih
    refine ⟨?_, ?_, ?_⟩
    · intro s v r h
      rw [parseValue] at h
      cases hsk : skipWS s with
      | nil => simp [hsk] at h
      | cons c rest =>
        have hlen := skipWS_eq_cons_length s rest c hsk
        simp only [hsk] at h
        split_ifs at h
        · obtain ⟨x, hx⟩ := map_fst_eq_some _ JSONValue.string _ _ h
          have := parseString_length_le _ _ _ hx
          omega
        · cases hsk1 : skipWS rest with
          | nil => simp [hsk1] at h
          | cons d rest1 =>
            have hlen1 := skipWS_eq_cons_length rest rest1 d hsk1
            simp only [hsk1] at h
            split_ifs at h
            · simp only [Option.some.injEq, Prod.mk.injEq] at h
              rw [← h.2]; omega
            · obtain ⟨x, hx⟩ := map_fst_eq_some _ JSONValue.array _ _ h
              have := ihe _ _ _ hx
              omega
        · cases hsk1 : skipWS rest with
          | nil => simp [hsk1] at h
          | cons d rest1 =>
            have hlen1 := skipWS_eq_cons_length rest rest1 d hsk1
            simp only [hsk1] at h
            split_ifs at h
            · simp only [Option.some.injEq, Prod.mk.injEq] at h
              rw [← h.2]; omega
            · obtain ⟨x, hx⟩ := map_fst_eq_some _ JSONValue.object _ _ h
              have := ihm _ _ _ hx
              omega
        · have := expect_length_le _ _ _ (map_snd_eq_some _ _ _ _ h)
          omega
        · have := expect_length_le _ _ _ (map_snd_eq_some _ _ _ _ h)
          omega
        · have := expect_length_le _ _ _ (map_snd_eq_some _ _ _ _ h)
          omega
        · obtain ⟨x, hx⟩ := map_fst_eq_some _ JSONValue.number _ _ h
          have := parseNumber_length_le _ _ _ hx
          simp only [List.length_cons] at this
          omega
    · intro s vs r h
      rw [parseElements] at h
      cases hv : parseValue n s with
      | none => simp [hv] at h
      | some p =>
        obtain ⟨v, rest⟩ := p
        have h1 := ihv _ _ _ hv
        simp only [hv] at h
        cases hsk : skipWS rest with
        | nil => simp [hsk] at h
        | cons c rest1 =>
          have hlen := skipWS_eq_cons_length rest rest1 c hsk
          simp only [hsk] at h
          split_ifs at h
          · obtain ⟨x, hx⟩ := map_fst_eq_some _ (fun x => v :: x) _ _ h
            have := ihe _ _ _ hx
            omega
          · simp only [Option.some.injEq, Prod.mk.injEq] at h
            rw [← h.2]; omega
    · intro s ms r h
      rw [parseMembers] at h
      cases hsk : skipWS s with
      | nil => simp [hsk] at h
      | cons q rest =>
        have hlen := skipWS_eq_cons_length s rest q hsk
        simp only [hsk] at h
        split_ifs at h
        cases hs : parseString rest with
        | none => simp [hs] at h
        | some p =>
          obtain ⟨key, rest1⟩ := p
          have h1 := parseString_length_le _ _ _ hs
          simp only [hs] at h
          cases hsk1 : skipWS rest1 with
          | nil => simp [hsk1] at h
          | cons colon rest2 =>
            have hlen1 := skipWS_eq_cons_length rest1 rest2 colon hsk1
            simp only [hsk1] at h
            split_ifs at h
            cases hv : parseValue n rest2 with
            | none => simp [hv] at h
            | some pv =>
              obtain ⟨v, rest3⟩ := pv
              have h2 := ihv _ _ _ hv
              simp only [hv] at h
              cases hsk2 : skipWS rest3 with
              | nil => simp [hsk2] at h
              | cons c rest4 =>
                have hlen2 := skipWS_eq_cons_length rest3 rest4 c hsk2
                simp only [hsk2] at h
                split_ifs at h
                · obtain ⟨x, hx⟩ := map_fst_eq_some _ (fun x => (key, v) :: x) _ _ h
                  have := ihm _ _ _ hx
                  omega
                · simp only [Option.some.injEq, Prod.mk.injEq] at h
                  rw [← h.2]; omega

theorem parse_fuel_step (n : Nat) :
    (∀ s, 2 * s.length < n → parseValue (n + 1) s = parseValue n s) ∧
    (∀ s, 2 * s.length + 1 < n → parseElements (n + 1) s = parseElements n s) ∧
    (∀ s, 2 * s.length + 1 < n → parseMembers (n + 1) s = parseMembers n s) := by
  induction n with
  | zero =>
    refine ⟨?_, ?_, ?_⟩ <;> intro s h <;> omega
  | succ n ih =>
    obtain ⟨ihv, ihe, ihm⟩ := ih
    refine ⟨?_, ?_, ?_⟩
    · intro s h
      rw [parseValue, parseValue]
      cases hsk : skipWS s with
      | nil => rfl
      | cons c rest =>
        have hlen := skipWS_eq_cons_length s rest c hsk
        simp only [ihe rest (by omega), ihm rest (by omega)]
    · intro s h
      rw [parseElements, parseElements, ihv s (by omega)]
      cases hv : parseValue n s with
      | none => rfl
      | some p =>
        obtain ⟨v, rest⟩ := p
        have h1 := (parse_length_le n).1 _ _ _ hv
        simp only []
        cases hsk : skipWS rest with
        | nil => rfl
        | cons c rest1 =>
          have hlen := skipWS_eq_cons_length rest rest1 c hsk
          simp only [ihe rest1 (by omega)]
    · intro s h
      rw [parseMembers, parseMembers]
      cases hsk : skipWS s with
      | nil => rfl
      | cons q rest =>
        have hlen := skipWS_eq_cons_length s rest q hsk
        simp only []
        split_ifs
        · cases hs : parseString rest with
          | none => rfl
          | some p =>
            obtain ⟨key, rest1⟩ := p
            have h1 := parseString_length_le _ _ _ hs
            simp only []
            cases hsk1 : skipWS rest1 with
            | nil => rfl
            | cons colon rest2 =>
              have hlen1 := skipWS_eq_cons_length rest1 rest2 colon hsk1
              simp only []
              split_ifs
              · rw [ihv rest2 (by omega)]
                cases hv : parseValue n rest2 with
                | none => rfl
                | some pv =>
                  obtain ⟨v, rest3⟩ := pv
                  have h2 := (parse_length_le n).1 _ _ _ hv
                  simp only []
                  cases hsk2 : skipWS rest3 with
                  | nil => rfl
                  | cons c rest4 =>
                    have hlen2 := skipWS_eq_cons_length rest3 rest4 c hsk2
                    simp only [ihm rest4 (by omega)]
              · rfl
        · rfl

/-- Fuel beyond twice the length of the text never changes what the value
parser returns: the fuel `JSON.parse` passes is not what makes it reject a
text. -/
theorem parseValue_fuel_stable (n k : Nat) (s : JSString) (h : 2 * s.length < n) :
    parseValue (n + k) s = parseValue n s := by
  induction k with
  | zero => rfl
  | succ k ih =>
    rw [← Nat.add_assoc, (parse_fuel_step (n + k)).1 s (by omega), ih]

theorem parse_error (text : JSString) (err : JSError)
    (h : JSON.parse text = Except.error err) : err = JSError.syntaxError := by
  unfold JSON.parse at h
  cases hp : parseValue (2 * text.length + 2) text with
  | none => simp [hp] at h; exact h.symm
  | some r =>
    obtain ⟨v, rest⟩ := r
    cases hw : skipWS rest with
    | nil => simp [hp, hw] at h
    | cons c tail => simp [hp, hw] at h; exact h.symm

/-! ### `localStorage` -/

theorem Storage.getItem_append_new (st : Storage) (key value : JSString)
    (h : st.getItem key = none) : Storage.getItem (st ++ [(key, value)]) key = some value := by
  induction st with
  | nil => simp [Storage.getItem]
  | cons kv rest ih =>
    simp only [Storage.getItem] at h
    split_ifs at h with hk
    simp [Storage.getItem, hk, ih h]

theorem Storage.getItem_map_set (st : Storage) (key value : JSString)
    (h : st.getItem key ≠ none) :
    Storage.getItem (st.map (fun kv => if kv.1 = key then (kv.1, value) else kv)) key
      = some value := by
  induction st with
  | nil => simp [Storage.getItem] at h
  | cons kv rest ih =>
    simp only [Storage.getItem] at h
    by_cases hk : kv.1 = key
    · simp [Storage.getItem, hk]
    · simp only [hk, if_false] at h
      simp [Storage.getItem, hk, ih h]

theorem Storage.getItem_setItem (st : Storage) (key value : JSString) :
    (st.setItem key value).getItem key = some value := by
  unfold Storage.setItem
  cases h : st.getItem key with
  | none => exact Storage.getItem_append_new st key value h
  | some v => exact Storage.getItem_map_set st key value (by simp [h])

theorem Storage.getItem_removeItem (st : Storage) (key : JSString) :
    (st.removeItem key).getItem key = none := by
  induction st with
  | nil => rfl
  | cons kv rest ih =>
    unfold Storage.removeItem at ih ⊢
    by_cases hk : kv.1 = key
    · simpa [List.filter, hk] using ih
    · simp only [ne_eq, decide_not] at ih
      simp [List.filter, hk, Storage.getItem, ih]

/-! ### Reading the store -/

theorem stringify_ne_nil (items : List Entry) : JSON.stringify items ≠ [] := by
  simp [JSON.stringify]

theorem getLocalStorage_of_stringify (st : Storage) (items : List Entry)
    (h : st.getItem (utf16 "list") = some (JSON.stringify items)) :
    getLocalStorage st = Except.ok (JSONValue.array (items.map entryValue)) := by
  simp [getLocalStorage, h, stringify_ne_nil, parse_stringify]

theorem readItems_of_stringify (st : Storage) (items : List Entry)
    (h : st.getItem (utf16 "list") = some (JSON.stringify items)) :
    readItems st = Except.ok items := by
  simp [readItems, getLocalStorage_of_stringify st items h, JSONValue.asItems,
    toEntries_map_entryValue]

theorem readItems_setItem (st : Storage) (items : List Entry) :
    readItems (st.setItem (utf16 "list") (JSON.stringify items)) = Except.ok items :=
  readItems_of_stringify _ _ (Storage.getItem_setItem _ _ _)

theorem readItems_of_absent (st : Storage) (h : st.getItem (utf16 "list") = none) :
    readItems st = Except.ok [] := by
  simp [readItems, getLocalStorage, h, JSONValue.asItems, toEntries?]

/-! ### The handlers on a readable store -/

theorem addItem_add (t : Int) (s : Page) (c : List Entry) (hv : s.groceryValue ≠ [])
    (hf : s.editFlag = false) (hc : readItems s.localStorage = Except.ok c) :
    addItem t s = Except.ok
      { s with
        localStorage := s.localStorage.setItem (utf16 "list")
          (JSON.stringify (c ++ [⟨timeToString t, s.groceryValue⟩]))
        list := s.list ++ [⟨s.nextNode, timeToString t, s.groceryValue⟩]
        showContainer := true
        groceryValue := []
        submitBtnText := "Add"
        alerts := s.alerts ++ [("Item Added", "success")]
        editFlag := false
        editID := []
        nextNode := s.nextNode + 1 } := by
  simp [addItem, hv, hf, displayAlert, addToLocalStorage, hc, setBackToDefault]

theorem addItem_update (t : Int) (s : Page) (c : List Entry) (node : Nat)
    (hv : s.groceryValue ≠ []) (hf : s.editFlag = true) (he : s.editElement = some node)
    (hc : readItems s.localStorage = Except.ok c) :
    addItem t s = Except.ok
      { s with
        localStorage := s.localStorage.setItem (utf16 "list")
          (JSON.stringify (c.map (fun item =>
            if item.id = s.editID then { item with value := s.groceryValue } else item)))
        list := s.list.map (fun el =>
          if el.node = node then { el with title := s.groceryValue } else el)
        groceryValue := []
        submitBtnText := "Add"
        alerts := s.alerts ++ [("Item Name Updated", "success")]
        editFlag := false
        editID := [] } := by
  simp [addItem, hv, hf, he, displayAlert, editLocalStorage, hc, setBackToDefault, setInnerHTML]

theorem addItem_empty (t : Int) (s : Page) (hv : s.groceryValue = []) :
    addItem t s = Except.ok
      { s with alerts := s.alerts ++ [("Please Enter Value", "danger")] } := by
  simp [addItem, hv, displayAlert]

theorem deleteItem_rendered (node : Nat) (s : Page) (el : Element) (c : List Entry)
    (ha : s.article node = some el) (hc : readItems s.localStorage = Except.ok c) :
    deleteItem node s = Except.ok
      { s with
        localStorage := s.localStorage.setItem (utf16 "list")
          (JSON.stringify (c.filter (fun item => item.id ≠ el.dataId)))
        list := s.list.eraseP (fun el => el.node = node)
        showContainer :=
          if (s.list.eraseP (fun el => el.node = node)).length = 0 then false
          else s.showContainer
        groceryValue := []
        submitBtnText := "Add"
        alerts := s.alerts ++ [("Item Removed", "danger")]
        editFlag := false
        editID := [] } := by
  by_cases hl : (s.list.eraseP (fun el => el.node = node)).length = 0
  · simp [deleteItem, ha, hl, displayAlert, setBackToDefault, removeFromLocalStorage, hc]
  · simp [deleteItem, ha, hl, displayAlert, setBackToDefault, removeFromLocalStorage, hc]

theorem editItem_rendered (node : Nat) (s : Page) (el : Element)
    (ha : s.article node = some el) :
    editItem node s = Except.ok
      { s with editElement := some node, groceryValue := el.title, editFlag := true,
               editID := el.dataId, submitBtnText := "Update" } := by
  simp [editItem, ha]

theorem readItems_clearItems (s : Page) :
    readItems (clearItems s).localStorage = Except.ok [] :=
  readItems_of_absent _ (Storage.getItem_removeItem _ _)

/-! ### Clock readings as strings -/

theorem digit_val (n : Nat) : (CodeUnit.ofNat (0x30 + n % 10)).val = 0x30 + n % 10 := by
  simp only [CodeUnit.ofNat]
  omega

theorem valueRev_digitsRev (fuel n : Nat) (h : n < fuel) : valueRev (digitsRev fuel n) = n := by
  induction fuel generalizing n with
  | zero => omega
  | succ fuel ih =>
    rw [digitsRev]
    by_cases h0 : n / 10 = 0
    · simp only [h0, if_true, valueRev, digit_val]
      omega
    · simp only [h0, if_false, valueRev, digit_val]
      rw [ih (n / 10) (by omega)]
      omega

theorem digitsRev_all_digits (fuel n : Nat) :
    ∀ d ∈ digitsRev fuel n, d ≠ (0x2D : CodeUnit) := by
  induction fuel generalizing n with
  | zero => simp [digitsRev]
  | succ fuel ih =>
    intro d hd
    rw [digitsRev] at hd
    rcases List.mem_cons.1 hd with rfl | hd
    · intro h
      have := congrArg Fin.val h
      rw [digit_val] at this
      have h45 : ((0x2D : CodeUnit) : Nat) = 45 := rfl
      omega
    · split_ifs at hd
      · simp at hd
      · exact ih _ d hd

theorem natToString_injective (a b : Nat) (h : natToString a = natToString b) : a = b := by
  have h1 : digitsRev (a + 1) a = digitsRev (b + 1) b := List.reverse_injective h
  have h2 := congrArg valueRev h1
  rwa [valueRev_digitsRev _ _ (Nat.lt_succ_self a), valueRev_digitsRev _ _ (Nat.lt_succ_self b)] at h2

theorem natToString_no_minus (n : Nat) : (0x2D : CodeUnit) ∉ natToString n := by
  intro h
  exact digitsRev_all_digits (n + 1) n _ (List.mem_reverse.1 h) rfl

theorem timeToString_injective (a b : Int) (h : timeToString a = timeToString b) : a = b := by
  unfold timeToString at h
  split_ifs at h with ha hb hb
  · have := natToString_injective _ _ (List.cons_injective h)
    omega
  · exact absurd (h ▸ List.mem_cons_self _ _) (natToString_no_minus _)
  · exact absurd (h ▸ List.mem_cons_self _ _) (natToString_no_minus _)
  · have := natToString_injective _ _ h
    omega

/-! ### Events -/

theorem possible_edit (s : Page) (node : Nat) (h : (Event.edit node).possible s = true) :
    ∃ el, s.article node = some el := by
  simpa [Event.possible, Option.isSome_iff_exists] using h

theorem possible_delete (s : Page) (node : Nat) (h : (Event.delete node).possible s = true) :
    ∃ el, s.article node = some el := by
  simpa [Event.possible, Option.isSome_iff_exists] using h

/-! ### Ids -/

theorem unique_step (s : Page) (ev : Event) (xs : List Entry)
    (hr : readItems s.localStorage = Except.ok xs) (hn : (xs.map Entry.id).Nodup)
    (hs : s.editFlag = true → ∃ node, s.editElement = some node)
    (hp : ev.possible s = true)
    (hnew : ∀ now, ev = Event.submit now → timeToString now ∉ xs.map Entry.id) :
    ∃ s1 xs1, step s ev = Except.ok s1 ∧ readItems s1.localStorage = Except.ok xs1 ∧
      (xs1.map Entry.id).Nodup ∧
      (s1.editFlag = true → ∃ node, s1.editElement = some node) ∧
      (∀ i ∈ xs1.map Entry.id, i ∈ xs.map Entry.id ∨
        ∃ now, ev = Event.submit now ∧ addsEntry s = true ∧ i = timeToString now) := by
  cases ev with
  | type v => exact ⟨_, xs, rfl, hr, hn, hs, fun i hi => Or.inl hi⟩
  | submit now =>
    by_cases hval : s.groceryValue = []
    · exact ⟨_, xs, addItem_empty now s hval, hr, hn, hs, fun i hi => Or.inl hi⟩
    · cases hf : s.editFlag with
      | false =>
        refine ⟨_, _, addItem_add now s xs hval hf hr, readItems_setItem _ _, ?_, by simp, ?_⟩
        · simp only [List.map_append, List.map_cons, List.map_nil]
          rw [List.nodup_append]
          refine ⟨hn, by simp, ?_⟩
          intro i hi1 hi2
          simp at hi2
          subst hi2
          exact hnew now rfl hi1
        · intro i hi
          simp only [List.map_append, List.map_cons, List.map_nil, List.mem_append,
            List.mem_singleton] at hi
          rcases hi with hi | hi
          · exact Or.inl hi
          · exact Or.inr ⟨now, rfl, by simp [addsEntry, hval, hf], hi⟩
      | true =>
        obtain ⟨node, hnode⟩ := hs hf
        have hids : (xs.map (fun item =>
            if item.id = s.editID then { item with value := s.groceryValue } else item)).map
              Entry.id = xs.map Entry.id := by
          rw [List.map_map]
          apply List.map_congr_left
          intro e _
          by_cases he : e.id = s.editID <;> simp [he]
        refine ⟨_, _, addItem_update now s xs node hval hf hnode hr, readItems_setItem _ _, ?_,
          by simp, ?_⟩
        · rw [hids]; exact hn
        · intro i hi
          rw [hids] at hi
          exact Or.inl hi
  | edit node =>
    obtain ⟨el, ha⟩ := possible_edit s node hp
    exact ⟨_, xs, editItem_rendered node s el ha, hr, hn, fun _ => ⟨node, rfl⟩,
      fun i hi => Or.inl hi⟩
  | delete node =>
    obtain ⟨el, ha⟩ := possible_delete s node hp
    have hsub : (xs.filter (fun item => item.id ≠ el.dataId)).Sublist xs := List.filter_sublist _
    refine ⟨_, _, deleteItem_rendered node s el xs ha hr, readItems_setItem _ _, ?_, by simp, ?_⟩
    · exact hn.sublist (hsub.map _)
    · intro i hi
      exact Or.inl ((hsub.map Entry.id).subset hi)
  | clear =>
    exact ⟨_, [], rfl, readItems_clearItems s, by simp,
      by simp [clearItems, setBackToDefault, displayAlert], by simp⟩

theorem addedIds_cons (s s1 : Page) (ev : Event) (evs : List Event)
    (h : step s ev = Except.ok s1) :
    addedIds s (ev :: evs) = ev.added s ++ addedIds s1 evs := by
  rw [addedIds]
  simp only [h]

theorem unique_run (evs : List Event) (s : Page) (xs : List Entry)
    (hr : readItems s.localStorage = Except.ok xs) (hn : (xs.map Entry.id).Nodup)
    (hs : s.editFlag = true → ∃ node, s.editElement = some node)
    (hpast : ∀ i ∈ xs.map Entry.id, ∃ t, i = timeToString t ∧ ∀ u ∈ clockReadings evs, t < u)
    (hclock : (clockReadings evs).Pairwise (fun a b => a < b))
    (hp : possibleTrace s evs = true) :
    ∃ s1 xs1, run s evs = Except.ok s1 ∧ readItems s1.localStorage = Except.ok xs1 ∧
      (xs1.map Entry.id).Nodup ∧ (addedIds s evs).Nodup ∧
      (∀ i ∈ addedIds s evs, ∃ t ∈ clockReadings evs, i = timeToString t) ∧
      (∀ i ∈ xs1.map Entry.id, i ∈ xs.map Entry.id ∨ i ∈ addedIds s evs) := by
  induction evs generalizing s xs with
  | nil => exact ⟨s, xs, rfl, hr, hn, by simp [addedIds], by simp [addedIds], fun i hi => Or.inl hi⟩
  | cons ev evs ih =>
    simp only [possibleTrace, Bool.and_eq_true] at hp
    have hnew : ∀ now, ev = Event.submit now → timeToString now ∉ xs.map Entry.id := by
      intro now hev hmem
      obtain ⟨t, ht, hlt⟩ := hpast _ hmem
      have := hlt now (by simp [hev, clockReadings])
      have := timeToString_injective _ _ ht
      omega
    obtain ⟨s1, xs1, h1, hr1, hn1, hs1, hfrom⟩ := unique_step s ev xs hr hn hs hp.1 hnew
    have hp2 := hp.2
    rw [h1] at hp2
    have hsubset : ∀ u ∈ clockReadings evs, u ∈ clockReadings (ev :: evs) := by
      intro u hu
      cases ev <;> simp [clockReadings, hu]
    have hclock1 : (clockReadings evs).Pairwise (fun a b => a < b) := by
      cases ev <;> simp only [clockReadings, List.pairwise_cons] at hclock
      all_goals first | exact hclock | exact hclock.2
    have hlater : ∀ now, ev = Event.submit now → ∀ u ∈ clockReadings evs, now < u := by
      intro now hev u hu
      subst hev
      simp only [clockReadings, List.pairwise_cons] at hclock
      exact hclock.1 u hu
    have hpast1 : ∀ i ∈ xs1.map Entry.id,
        ∃ t, i = timeToString t ∧ ∀ u ∈ clockReadings evs, t < u := by
      intro i hi
      rcases hfrom i hi with h | ⟨now, hev, _, hnow⟩
      · obtain ⟨t, ht, hlt⟩ := hpast i h
        exact ⟨t, ht, fun u hu => hlt u (hsubset u hu)⟩
      · exact ⟨now, hnow, hlater now hev⟩
    obtain ⟨s2, xs2, h2, hr2, hn2, hadd2, hsrc2, hfrom2⟩ := ih s1 xs1 hr1 hn1 hs1 hpast1 hclock1 hp2
    refine ⟨s2, xs2, by simp [run, h1, h2], hr2, hn2, ?_, ?_, ?_⟩
    · rw [addedIds_cons s s1 ev evs h1]
      cases ev with
      | submit now =>
        simp only [Event.added]
        split_ifs with hadds
        · simp only [List.singleton_append, List.nodup_cons]
          refine ⟨?_, hadd2⟩
          intro hmem
          obtain ⟨t, ht, hti⟩ := hsrc2 _ hmem
          have := hlater now rfl t ht
          have := timeToString_injective _ _ hti
          omega
        · simpa using hadd2
      | _ => simpa [Event.added] using hadd2
    · intro i hi
      rw [addedIds_cons s s1 ev evs h1] at hi
      rcases List.mem_append.1 hi with hi | hi
      · cases ev with
        | submit now =>
          simp only [Event.added] at hi
          split_ifs at hi
          · simp only [List.mem_singleton] at hi
            exact ⟨now, by simp [clockReadings], hi⟩
          · simp at hi
        | _ => simp [Event.added] at hi
      · obtain ⟨t, ht, hti⟩ := hsrc2 i hi
        exact ⟨t, hsubset t ht, hti⟩
    · intro i hi
      rw [addedIds_cons s s1 ev evs h1]
      rcases hfrom2 i hi with h | h
      · rcases hfrom i h with h' | ⟨now, hev, hadds, hnow⟩
        · exact Or.inl h'
        · subst hev
          right
          simp [Event.added, hadds, hnow]
      · exact Or.inr (List.mem_append_right _ h)

/-! # The claims -/

/-- C5: a collection written under the key `list` the way the program writes
it is read back by `getLocalStorage` unchanged: same ids, same values, same
order, the empty collection included. -/
theorem store_round_trip (st : Storage) (xs : List Entry) :
    getLocalStorage (st.setItem (utf16 "list") (JSON.stringify xs))
      = Except.ok (JSONValue.array (xs.map entryValue)) ∧
    readItems (st.setItem (utf16 "list") (JSON.stringify xs)) = Except.ok xs ∧
    JSON.parse (JSON.stringify xs) = Except.ok (JSONValue.array (xs.map entryValue)) ∧
    toEntries? (xs.map entryValue) = some xs :=
  ⟨getLocalStorage_of_stringify _ _ (Storage.getItem_setItem _ _ _), readItems_setItem _ _,
    parse_stringify xs, toEntries_map_entryValue xs⟩

/-- C6, as stated, fails: with the text `{` stored under `list`,
`JSON.parse` rejects it and `getLocalStorage` raises `SyntaxError` instead of
returning the empty collection. -/
theorem getLocalStorage_raises_on_malformed :
    JSON.parse (utf16 "\x7b") = Except.error JSError.syntaxError ∧
    getLocalStorage [(utf16 "list", utf16 "\x7b")] = Except.error JSError.syntaxError ∧
    ¬ ∃ v, getLocalStorage [(utf16 "list", utf16 "\x7b")] = Except.ok v := by
  have h : getLocalStorage [(utf16 "list", utf16 "\x7b")]
      = Except.error JSError.syntaxError := by rfl
  refine ⟨by rfl, h, ?_⟩
  rintro ⟨v, hv⟩
  rw [h] at hv
  cases hv

/-- C6, amended: `getLocalStorage` returns the empty collection when the key
`list` is absent or holds the empty string, returns the stored collection when
the key holds a serialized collection, and raises the `SyntaxError` of
`JSON.parse` when the stored text is not JSON. -/
theorem getLocalStorage_cases (st : Storage) :
    (st.getItem (utf16 "list") = none → getLocalStorage st = Except.ok (JSONValue.array [])) ∧
    (st.getItem (utf16 "list") = some [] →
      getLocalStorage st = Except.ok (JSONValue.array [])) ∧
    (∀ xs, st.getItem (utf16 "list") = some (JSON.stringify xs) →
      getLocalStorage st = Except.ok (JSONValue.array (xs.map entryValue)) ∧
      readItems st = Except.ok xs) ∧
    (∀ text, st.getItem (utf16 "list") = some text → text ≠ [] →
      JSON.parse text = Except.error JSError.syntaxError →
      getLocalStorage st = Except.error JSError.syntaxError) ∧
    (∀ err, getLocalStorage st = Except.error err → err = JSError.syntaxError) := by
  refine ⟨?_, ?_, ?_, ?_, ?_⟩
  · intro h; simp [getLocalStorage, h]
  · intro h; simp [getLocalStorage, h]
  · intro xs h
    exact ⟨getLocalStorage_of_stringify st xs h, readItems_of_stringify st xs h⟩
  · intro text h hne hp
    simp [getLocalStorage, h, hne, hp]
  · intro err h
    unfold getLocalStorage at h
    cases hg : st.getItem (utf16 "list") with
    | none => simp [hg] at h
    | some text =>
      by_cases hne : text = []
      · simp [hg, hne] at h
      · simp only [hg, hne, if_false] at h
        exact parse_error text err h

/-- C7: a submit with an empty input field, idle or editing, changes neither
the store nor the rendered list nor the session (`editFlag`, `editID`,
`editElement`), and issues the one alert "Please Enter Value" of kind
danger. -/
theorem addItem_rejects_empty (s : Page) (t : Int) (hv : s.groceryValue = []) :
    ∃ s1, addItem t s = Except.ok s1 ∧
      s1.localStorage = s.localStorage ∧ s1.list = s.list ∧
      s1.showContainer = s.showContainer ∧
      s1.editFlag = s.editFlag ∧ s1.editID = s.editID ∧ s1.editElement = s.editElement ∧
      s1.groceryValue = s.groceryValue ∧ s1.submitBtnText = s.submitBtnText ∧
      s1.nextNode = s.nextNode ∧
      s1.alerts = s.alerts ++ [("Please Enter Value", "danger")] :=
  ⟨_, addItem_empty t s hv, rfl, rfl, rfl, rfl, rfl, rfl, rfl, rfl, rfl, rfl⟩

/-- C9: with clock readings that strictly increase from one submit to the
next, every state reached from a store without the key `list` has pairwise
distinct persisted ids, each of them given by an earlier add, and the ids
given by the adds of the sequence are pairwise distinct, whether or not the
entries were deleted since. -/
theorem persisted_ids_distinct (storage : Storage) (label : String) (evs : List Event)
    (h0 : storage.getItem (utf16 "list") = none)
    (hclock : (clockReadings evs).Pairwise (fun a b => a < b))
    (hp : possibleTrace (freshPage storage label) evs = true) :
    setupItems (freshPage storage label) = Except.ok (freshPage storage label) ∧
    ∃ s xs, run (freshPage storage label) evs = Except.ok s ∧
      readItems s.localStorage = Except.ok xs ∧
      (xs.map Entry.id).Nodup ∧
      (addedIds (freshPage storage label) evs).Nodup ∧
      (∀ i ∈ xs.map Entry.id, i ∈ addedIds (freshPage storage label) evs) := by
  have hr : readItems (freshPage storage label).localStorage = Except.ok [] :=
    readItems_of_absent storage h0
  constructor
  · simp [setupItems, hr]
  · obtain ⟨s, xs, hrun, hrs, hn, hadd, _, hfrom⟩ :=
      unique_run evs (freshPage storage label) [] hr (by simp) (by simp [freshPage]) (by simp)
        hclock hp
    refine ⟨s, xs, hrun, hrs, hn, hadd, ?_⟩
    intro i hi
    rcases hfrom i hi with h | h
    · simp at h
    · exact h

/-! # The claims at `demoPage` -/

set_option maxRecDepth 100000

/-- C6 (amended) at a store holding `demoItems` and at a page without the
key. -/
theorem getLocalStorage_cases_witness :
    getLocalStorage demoStorage = Except.ok (JSONValue.array (demoItems.map entryValue)) ∧
    readItems demoStorage = Except.ok demoItems ∧
    getLocalStorage [] = Except.ok (JSONValue.array []) ∧
    getLocalStorage [(utf16 "list", utf16 "[1,")] = Except.error JSError.syntaxError :=
  ⟨((getLocalStorage_cases demoStorage).2.2.1 demoItems (by rfl)).1,
    ((getLocalStorage_cases demoStorage).2.2.1 demoItems (by rfl)).2,
    (getLocalStorage_cases []).1 (by rfl),
    (getLocalStorage_cases [(utf16 "list", utf16 "[1,")]).2.2.2.1 (utf16 "[1,") (by rfl)
      (by decide) (by rfl)⟩

/-- C7 at `demoEditing`: the empty submit leaves the edit session open. -/
theorem addItem_rejects_empty_witness :
    demoEditing.groceryValue = [] ∧
    ∃ s1, addItem 1004 demoEditing = Except.ok s1 ∧
      s1.localStorage = demoEditing.localStorage ∧ s1.list = demoEditing.list ∧
      s1.showContainer = demoEditing.showContainer ∧
      s1.editFlag = demoEditing.editFlag ∧ s1.editID = demoEditing.editID ∧
      s1.editElement = demoEditing.editElement ∧
      s1.groceryValue = demoEditing.groceryValue ∧
      s1.submitBtnText = demoEditing.submitBtnText ∧
      s1.nextNode = demoEditing.nextNode ∧
      s1.alerts = demoEditing.alerts ++ [("Please Enter Value", "danger")] :=
  ⟨rfl, addItem_rejects_empty demoEditing 1004 rfl⟩

/-- C9 at the empty store and the session `demoEvents`. -/
theorem persisted_ids_distinct_witness :
    Storage.getItem [] (utf16 "list") = none ∧
    (clockReadings demoEvents).Pairwise (fun a b => a < b) ∧
    possibleTrace (freshPage [] "Add") demoEvents = true ∧
    setupItems (freshPage [] "Add") = Except.ok (freshPage [] "Add") ∧
    ∃ s xs, run (freshPage [] "Add") demoEvents = Except.ok s ∧
      readItems s.localStorage = Except.ok xs ∧
      (xs.map Entry.id).Nodup ∧
      (addedIds (freshPage [] "Add") demoEvents).Nodup ∧
      (∀ i ∈ xs.map Entry.id, i ∈ addedIds (freshPage [] "Add") demoEvents) :=
  ⟨rfl, by decide, by decide!,
    persisted_ids_distinct [] "Add" demoEvents rfl (by decide) (by decide!)⟩

end GroceryList
